import Mathlib

/-!
# RepoFusion — verification of the provider-resolution and structured-output validation core

Shallow embedding of the hard core of the RepoFusion repository:

* the provider-resolution chain shared (line for line) by
  `src/ai/flows/intelligent-merge.ts` (`intelligentMergeFlow`, lines 155-195) and
  `src/ai/flows/recommend-repos-flow.ts` (`recommendReposFlow`, lines 202-236);
* the merge-output validation of `intelligentMergeFlow`
  (`src/ai/flows/intelligent-merge.ts`, lines 197-217), and the lenient
  generation of the same validator found in the repository snapshot
  (`src/unnamed/part_004`, lines 325-358);
* the recommendation-output validation of `recommendReposFlow`
  (`src/ai/flows/recommend-repos-flow.ts`, lines 240-271).

JavaScript runtime conventions used throughout the embedding:

* an optional string input field is `Option String`; JS truthiness of such a
  field (`undefined`, `null` and `""` are falsy) is the `truthy` predicate;
* `!s.trim()` (blank after trimming) is `trimEmpty s`: true iff every
  character of `s` is whitespace (the claims only exercise ASCII whitespace,
  so the whitespace set is `' '`, `'\t'`, `'\n'`, `'\r'`);
* `s.split(':')[0]` is `ollamaBase s`: the longest prefix of `s` before the
  first `':'` (for a string with no `':'`, the whole string);
* `u.startsWith(p)` is `strStartsWith u p`;
* a JS value that may or may not be a string is `FVal`: either `.str s`, or
  `.nonStr falsy` recording only the truthiness the code observes;
* a JS value that may or may not be an array is `FilesVal`;
* an element of a JS array that may or may not be an object is `FileEntry`
  (for merge file lists) or `RecEntry` (for recommendation lists).
-/

/-- The JS whitespace characters exercised by this code base (ASCII range). -/
def isJsWS (c : Char) : Bool := c = ' ' || c = '\t' || c = '\n' || c = '\r'

/-- `!s.trim()` from the source: `s` is blank (empty or whitespace-only). -/
def trimEmpty (s : String) : Bool := s.data.all isJsWS

/-- `s.startsWith(p)` from the source (JS `String.prototype.startsWith`). -/
def strStartsWith (s p : String) : Bool := p.data.isPrefixOf s.data

/-- JS truthiness of an optional string field: `undefined` and `""` are falsy. -/
def truthy : Option String → Bool
  | none => false
  | some s => s ≠ ""

/-- `s.split(':')[0]` from the source: the prefix of `s` before the first
`':'` (the whole string when `s` has no `':'`). -/
def ollamaBase (s : String) : String := String.mk (s.data.takeWhile (fun c => c != ':'))

/-- The `ApiModelType` enumeration of `src/types/settings.ts` and the zod
`ApiModelTypeSchema` of the flow input schemas. -/
inductive ApiModel
  | gemini
  | openrouter
  | huggingface
  | llamafile
  | ollama
deriving DecidableEq, Repr

/-- The flow input record (`IntelligentMergeInputSchema` /
`RecommendReposInputSchema` model-configuration fields). Optional zod fields
become `Option`; the fields not used by the embedded logic
(`repositoryUrls`, `targetLanguage`, `instructions`, recommendation `mode`,
`promptDescription`) are carried only where a claim needs them. -/
structure MergeInput where
  repositoryUrls : List String := []
  targetLanguage : Option String := none
  instructions : Option String := none
  mainApiModel : Option ApiModel := none
  ollamaMainModelName : Option String := none
  geminiMainModelName : Option String := none
  openrouterMainModelName : Option String := none
  huggingfaceMainModelName : Option String := none
  useCustomReasoningModel : Option Bool := none
  reasoningApiModel : Option ApiModel := none
  ollamaReasoningModelName : Option String := none
  geminiReasoningModelName : Option String := none
  openrouterReasoningModelName : Option String := none
  huggingfaceReasoningModelName : Option String := none
  useCustomCodingModel : Option Bool := none
  codingApiModel : Option ApiModel := none
  ollamaCodingModelName : Option String := none
  geminiCodingModelName : Option String := none
  openrouterCodingModelName : Option String := none
  huggingfaceCodingModelName : Option String := none
  llamafilePath : Option String := none
  geminiApiKey : Option String := none
  openrouterApiKey : Option String := none
  huggingfaceApiKey : Option String := none
deriving DecidableEq, Repr

/-- Which backend instance executes the generation call: the shared default
Genkit instance (`globalAi`) or an ephemeral request-scoped instance built
from a user-supplied Gemini API key (`genkit({plugins:[googleAI({apiKey})]})`). -/
inductive BackendInst
  | shared
  | ephemeral (key : String)
deriving DecidableEq, Repr

/-- The resolved request configuration produced by the main-model branching of
both flows: the instance that executes the call, the `modelToUse` override
(absent means the shared instance's default model), and whether the
ephemeral-construction-failure diagnostic was logged (`console.error` in the
catch block). -/
structure Resolution where
  inst : BackendInst
  modelToUse : Option String
  fallbackLogged : Bool
deriving DecidableEq, Repr

/-- The main-model resolution chain, embedded from
`src/ai/flows/intelligent-merge.ts` lines 155-195 and (identically)
`src/ai/flows/recommend-repos-flow.ts` lines 202-236.

`ephemeralOk key` models whether `genkit({plugins:[googleAI({apiKey: key})]})`
construction succeeds; when it throws, the catch block falls back to the
shared instance with the same `googleai/<name>` model id and logs the failure.
The `llamafile` branch of the source sets no `modelToUse` and constructs no
instance (only a `console.warn`), so it coincides with the final fall-through:
both yield the shared instance with no override. -/
def resolveMainModel (ephemeralOk : String → Bool) (i : MergeInput) : Resolution :=
  if i.mainApiModel = some ApiModel.gemini ∧ truthy i.geminiApiKey = true ∧
      truthy i.geminiMainModelName = true then
    let key := i.geminiApiKey.getD ""
    let name := i.geminiMainModelName.getD ""
    if ephemeralOk key then
      { inst := .ephemeral key, modelToUse := some ("googleai/" ++ name), fallbackLogged := false }
    else
      { inst := .shared, modelToUse := some ("googleai/" ++ name), fallbackLogged := true }
  else if i.mainApiModel = some ApiModel.gemini ∧ truthy i.geminiMainModelName = true then
    { inst := .shared, modelToUse := some ("googleai/" ++ i.geminiMainModelName.getD ""),
      fallbackLogged := false }
  else if i.mainApiModel = some ApiModel.ollama ∧ truthy i.ollamaMainModelName = true then
    { inst := .shared,
      modelToUse := some ("ollama/" ++ ollamaBase (i.ollamaMainModelName.getD "")),
      fallbackLogged := false }
  else if i.mainApiModel = some ApiModel.openrouter ∧ truthy i.openrouterMainModelName = true then
    { inst := .shared, modelToUse := some ("openrouter/" ++ i.openrouterMainModelName.getD ""),
      fallbackLogged := false }
  else if i.mainApiModel = some ApiModel.huggingface ∧
      truthy i.huggingfaceMainModelName = true then
    { inst := .shared, modelToUse := some ("huggingface/" ++ i.huggingfaceMainModelName.getD ""),
      fallbackLogged := false }
  else
    { inst := .shared, modelToUse := none, fallbackLogged := false }

example :
    resolveMainModel (fun _ => false)
      { mainApiModel := some .ollama, ollamaMainModelName := some "llama2:7b" } =
    { inst := .shared, modelToUse := some "ollama/llama2", fallbackLogged := false } := by
  decide

example :
    resolveMainModel (fun _ => true)
      { mainApiModel := some .gemini, geminiApiKey := some "k",
        geminiMainModelName := some "gemini-pro" } =
    { inst := .ephemeral "k", modelToUse := some "googleai/gemini-pro",
      fallbackLogged := false } := by
  decide

/-! ## Raw backend output model (merge path)

The generation call returns either no output (`!output`, modeled `none`) or an
object with `files` and `summary` attributes of unchecked runtime type. The
embedding records, for each attribute, exactly the discriminations the source
performs on it: string / non-string (plus truthiness), array / non-array
(plus the truthiness and `.length === 0` observations made by the lenient
validator generation), object entry / non-object entry (plus nullishness,
which decides between a thrown `TypeError` on property access and an
`undefined` property). -/

/-- A JS value checked with `typeof v === 'string'`: a string, or a
non-string of which the code observes only truthiness. -/
inductive FVal
  | str (s : String)
  | nonStr (falsy : Bool)
deriving DecidableEq, Repr

/-- An element of the raw `files` array that is a JS object: its `path` and
`content` attributes. -/
structure RawFile where
  path : FVal
  content : FVal
deriving DecidableEq, Repr

/-- An element of the raw `files` array: an object, or a non-object of which
the code observes only whether it is nullish (`null`/`undefined`, on which a
property access throws a `TypeError`; property access on any other
non-object yields `undefined`). -/
inductive FileEntry
  | obj (f : RawFile)
  | nonObj (nullish : Bool)
deriving DecidableEq, Repr

/-- The raw `files` attribute, checked with `Array.isArray`: an array of
entries, or a non-array of which the lenient validator observes truthiness
and whether `.length === 0`. -/
inductive FilesVal
  | list (es : List FileEntry)
  | nonList (falsy : Bool) (lengthIsZero : Bool)
deriving DecidableEq, Repr

/-- The raw output object of the merge generation call. -/
structure RawOutput where
  files : FilesVal
  summary : FVal
deriving DecidableEq, Repr

/-- A validated generated file (`FileSchema`): `path` and `content` are
genuine strings. -/
structure MergeFile where
  path : String
  content : String
deriving DecidableEq, Repr

/-- A validated merge result (`IntelligentMergeOutputSchema`). -/
structure MergeOutput where
  files : List MergeFile
  summary : String
deriving DecidableEq, Repr

/-- The typed hard errors thrown by the merge flow validators. -/
inductive MergeError
  | emptyResponse
  | invalidSummary
  | filesNotList
  | invalidFilePath
  | invalidFileContent
  | jsTypeError
  | emptySummaryAndNoFiles
deriving DecidableEq, Repr

/-- The per-entry check of the strict merge validator
(`src/ai/flows/intelligent-merge.ts` lines 208-215): a nullish entry makes
`file.path` throw a `TypeError`; any other non-object has `file.path ===
undefined`, failing the `typeof file.path !== 'string'` check; an object
needs a string `path` with non-blank trim and a string `content`. -/
def checkFile : FileEntry → Except MergeError MergeFile
  | .nonObj true => .error .jsTypeError
  | .nonObj false => .error .invalidFilePath
  | .obj f =>
    match f.path with
    | .nonStr _ => .error .invalidFilePath
    | .str p =>
      if trimEmpty p then .error .invalidFilePath
      else
        match f.content with
        | .nonStr _ => .error .invalidFileContent
        | .str c => .ok { path := p, content := c }

/-- The strict validator's `for (const file of output.files)` loop: the first
failing entry aborts the flow. -/
def checkFiles : List FileEntry → Except MergeError (List MergeFile)
  | [] => .ok []
  | e :: rest =>
    match checkFile e with
    | .error er => .error er
    | .ok f =>
      match checkFiles rest with
      | .error er => .error er
      | .ok fs => .ok (f :: fs)

/-- The output validation of `intelligentMergeFlow`
(`src/ai/flows/intelligent-merge.ts` lines 197-217): reject an absent
output; reject a non-string or blank `summary`; reject a non-array `files`;
then check every file entry, aborting on the first invalid one, and return
the validated output. -/
def intelligentMergeValidate (o : Option RawOutput) : Except MergeError MergeOutput :=
  match o with
  | none => .error .emptyResponse
  | some out =>
    match out.summary with
    | .nonStr _ => .error .invalidSummary
    | .str s =>
      if trimEmpty s then .error .invalidSummary
      else
        match out.files with
        | .nonList _ _ => .error .filesNotList
        | .list es =>
          match checkFiles es with
          | .error er => .error er
          | .ok fs => .ok { files := fs, summary := s }

/-- The merge flow (`intelligentMergeFlow`): resolve the main model, issue the
generation call (`respond` stands for the backend round trip as a function of
the resolved configuration), validate the response. -/
def intelligentMergeFlow (ephemeralOk : String → Bool)
    (respond : Resolution → Option RawOutput) (i : MergeInput) :
    Except MergeError MergeOutput :=
  intelligentMergeValidate (respond (resolveMainModel ephemeralOk i))

/-! ## The lenient merge-validator generation (`src/unnamed/part_004`) -/

/-- The placeholder summary substituted by the lenient validator generation. -/
def placeholderSummary : String := "Summary was not generated by the AI."

/-- JS truthiness of an `FVal` (used by `output.summary || placeholder`). -/
def fvalTruthy : FVal → Bool
  | .str s => s ≠ ""
  | .nonStr falsy => !falsy

/-- The per-entry step of the lenient validator's `map` over `output.files`
(`src/unnamed/part_004` lines 340-354): skip non-objects and entries with a
non-string or blank `path`; coerce a non-string `content` to `""`. -/
def lenientFile : FileEntry → Option MergeFile
  | .nonObj _ => none
  | .obj f =>
    match f.path with
    | .nonStr _ => none
    | .str p =>
      if trimEmpty p then none
      else
        some { path := p,
               content := match f.content with | .str c => c | .nonStr _ => "" }

/-- The lenient validator's `map`-and-`filter` over the files array:
drop-and-continue. -/
def lenientFiles (es : List FileEntry) : List MergeFile := es.filterMap lenientFile

/-- The result shape of the lenient validator generation: validated files,
and the (possibly substituted, possibly still non-string) `summary` value it
returns. -/
structure LenientOutput where
  files : List MergeFile
  summary : FVal
deriving DecidableEq, Repr

/-- The output validation of the `intelligentMergeFlow` generation in
`src/unnamed/part_004` (lines 325-358): reject an absent output; on a
non-string or blank `summary`, reject only when the files value is absent or
empty (`!output.files || output.files.length === 0`), otherwise substitute
`output.summary = output.summary || placeholder`; coerce a non-array `files`
to `[]`; validate entries drop-and-continue. -/
def intelligentMergeValidateLenient (o : Option RawOutput) :
    Except MergeError LenientOutput :=
  match o with
  | none => .error .emptyResponse
  | some out =>
    let sumBlank : Bool :=
      match out.summary with
      | .str s => trimEmpty s
      | .nonStr _ => true
    let filesEmptyish : Bool :=
      match out.files with
      | .list es => es.isEmpty
      | .nonList falsy lengthIsZero => falsy || lengthIsZero
    if sumBlank ∧ filesEmptyish then .error .emptySummaryAndNoFiles
    else
      let newSummary : FVal :=
        if sumBlank ∧ fvalTruthy out.summary = false then .str placeholderSummary
        else out.summary
      let fs : List MergeFile :=
        match out.files with
        | .list es => lenientFiles es
        | .nonList _ _ => []
      .ok { files := fs, summary := newSummary }

example :
    intelligentMergeValidate
      (some { files := .list [.obj { path := .str "a.txt", content := .str "" }],
              summary := .str "" }) = .error .invalidSummary := rfl

example :
    intelligentMergeValidateLenient
      (some { files := .list [.obj { path := .str "a.txt", content := .str "" }],
              summary := .str "" }) =
    .ok { files := [{ path := "a.txt", content := "" }],
          summary := .str placeholderSummary } := rfl

example :
    intelligentMergeValidateLenient
      (some { files := .list [], summary := .str "" }) =
    .error .emptySummaryAndNoFiles := rfl

/-! ## Raw backend output model (recommendation path) -/

/-- An element of the raw `recommendations` array that is a JS object: its
`name`, `url` and `reason` attributes. -/
structure RawRec where
  name : FVal
  url : FVal
  reason : FVal
deriving DecidableEq, Repr

/-- An element of the raw `recommendations` array: an object, or anything
else (rejected by the `!repo || typeof repo !== 'object'` guard, which
catches every falsy value including `null` and every non-object). -/
inductive RecEntry
  | obj (r : RawRec)
  | nonObj
deriving DecidableEq, Repr

/-- The raw output object of the recommendation generation call: the
`recommendations` attribute is `none` when it is absent or otherwise falsy
(`!output.recommendations`). -/
structure RawRecOutput where
  recommendations : Option (List RecEntry)
deriving DecidableEq, Repr

/-- A validated recommendation entry (`RecommendedRepoSchema`). -/
structure Recommendation where
  name : String
  url : String
  reason : String
deriving DecidableEq, Repr

/-- The validated recommendation result together with the urls flagged by the
non-fatal `github.com/owner/repo` shape diagnostic (`console.warn`). -/
structure RecResult where
  recs : List Recommendation
  warnings : List String
deriving DecidableEq, Repr

/-- The typed hard errors thrown by the recommendation flow validator. -/
inductive RecError
  | noStructure
  | wrongCount (received : Nat)
  | invalidItem
  | invalidName
  | invalidUrl
  | invalidUrlScheme
  | invalidReason
deriving DecidableEq, Repr

/-- Does the character list start with `github.com/`, then one or more
non-`'/'` characters, then `'/'`, then one or more non-`'/'` characters?
(The body of the regex `github\.com\/[^/]+\/[^/]+` anchored at this
position.) -/
def githubAt (l : List Char) : Bool :=
  let pre := "github.com/".data
  if l.take pre.length = pre then
    let rest := l.drop pre.length
    let owner := rest.takeWhile (fun c => c != '/')
    (!owner.isEmpty) &&
      (match rest.drop owner.length with
       | '/' :: d :: _ => d != '/'
       | _ => false)
  else false

/-- Unanchored regex search: does some suffix of the character list match? -/
def githubShapeAux : List Char → Bool
  | [] => false
  | l@(_ :: t) => githubAt l || githubShapeAux t

/-- `/github\.com\/[^/]+\/[^/]+/.test(url)` from the source. -/
def githubShape (u : String) : Bool := githubShapeAux u.data

/-- The per-entry checks of the recommendation validator
(`src/ai/flows/recommend-repos-flow.ts` lines 248-270), in source order:
object guard, non-blank string `name`, non-blank string `url`, HTTP(S)
scheme, non-fatal `github.com/owner/repo` shape diagnostic (returned as a
flag), non-blank string `reason`. -/
def checkRec : RecEntry → Except RecError (Recommendation × Bool)
  | .nonObj => .error .invalidItem
  | .obj r =>
    match r.name with
    | .nonStr _ => .error .invalidName
    | .str n =>
      if trimEmpty n then .error .invalidName
      else
        match r.url with
        | .nonStr _ => .error .invalidUrl
        | .str u =>
          if trimEmpty u then .error .invalidUrl
          else if !(strStartsWith u "http://" || strStartsWith u "https://") then
            .error .invalidUrlScheme
          else
            match r.reason with
            | .nonStr _ => .error .invalidReason
            | .str why =>
              if trimEmpty why then .error .invalidReason
              else .ok ({ name := n, url := u, reason := why }, !githubShape u)

/-- The validator's `for (const repo of output.recommendations)` loop: the
first failing entry aborts the flow; the urls flagged by the non-fatal
diagnostic are collected in entry order. -/
def checkRecs : List RecEntry → Except RecError RecResult
  | [] => .ok { recs := [], warnings := [] }
  | e :: rest =>
    match checkRec e with
    | .error er => .error er
    | .ok (rec, warned) =>
      match checkRecs rest with
      | .error er => .error er
      | .ok res =>
        .ok { recs := rec :: res.recs,
              warnings := if warned then rec.url :: res.warnings else res.warnings }

/-- The output validation of `recommendReposFlow`
(`src/ai/flows/recommend-repos-flow.ts` lines 240-271): reject an absent
output or absent `recommendations`; reject a count other than exactly 5;
then check every entry. -/
def recommendValidate (o : Option RawRecOutput) : Except RecError RecResult :=
  match o with
  | none => .error .noStructure
  | some out =>
    match out.recommendations with
    | none => .error .noStructure
    | some recs =>
      if recs.length ≠ 5 then .error (.wrongCount recs.length)
      else checkRecs recs

/-- The recommendation flow (`recommendReposFlow`): resolve the main model,
issue the generation call, validate the response. -/
def recommendReposFlow (ephemeralOk : String → Bool)
    (respond : Resolution → Option RawRecOutput) (i : MergeInput) :
    Except RecError RecResult :=
  recommendValidate (respond (resolveMainModel ephemeralOk i))

/-- A well-formed recommendation entry used as a concrete test vector. -/
def goodRecEntry : RecEntry :=
  .obj { name := .str "next.js", url := .str "https://github.com/vercel/next.js",
         reason := .str "popular react framework" }

example : githubShape "https://github.com/a/b" = true := rfl

example : githubShape "https://example.com/a/b" = false := rfl

example :
    recommendValidate (some { recommendations := some (List.replicate 5 goodRecEntry) }) =
    .ok { recs := List.replicate 5
            { name := "next.js", url := "https://github.com/vercel/next.js",
              reason := "popular react framework" },
          warnings := [] } := by
  rfl

example :
    recommendValidate (some { recommendations := some (List.replicate 4 goodRecEntry) }) =
    .error (.wrongCount 4) := rfl

/-! ## Helper lemmas -/

theorem strDataAppend (s t : String) : (s ++ t).data = s.data ++ t.data := by
  cases s; cases t; rfl

theorem strMkData (s : String) : String.mk s.data = s := by
  cases s; rfl

theorem takeWhileAll (p : Char → Bool) :
    ∀ l : List Char, (∀ c ∈ l, p c = true) → l.takeWhile p = l := by
  intro l
  induction l with
  | nil => intro _; rfl
  | cons x t ih =>
    intro h
    have hx : p x = true := h x (List.mem_cons_self x t)
    simp [List.takeWhile, hx, ih fun c hc => h c (List.mem_cons_of_mem x hc)]

theorem takeWhileAllAppend (p : Char → Bool) (x : Char) (l₂ : List Char) (hx : p x = false) :
    ∀ l₁ : List Char, (∀ c ∈ l₁, p c = true) → (l₁ ++ x :: l₂).takeWhile p = l₁ := by
  intro l₁
  induction l₁ with
  | nil => intro _; simp [List.takeWhile, hx]
  | cons y t ih =>
    intro h
    have hy : p y = true := h y (List.mem_cons_self y t)
    simp [List.takeWhile, hy, ih fun c hc => h c (List.mem_cons_of_mem y hc)]

theorem colonNameData (base tag : String) :
    (base ++ ":" ++ tag).data = base.data ++ ':' :: tag.data := by
  simp [strDataAppend]

theorem colonNameNeEmpty (base tag : String) : base ++ ":" ++ tag ≠ "" := by
  intro h
  have hd := congrArg String.data h
  rw [colonNameData] at hd
  simp at hd

theorem ollamaBaseColon (base tag : String)
    (h : ∀ c ∈ base.data, c ≠ ':') : ollamaBase (base ++ ":" ++ tag) = base := by
  unfold ollamaBase
  rw [colonNameData]
  rw [takeWhileAllAppend _ _ _ (by simp) _ (fun c hc => by simp [h c hc])]

theorem ollamaBaseNoColon (nm : String)
    (h : ∀ c ∈ nm.data, c ≠ ':') : ollamaBase nm = nm := by
  unfold ollamaBase
  rw [takeWhileAll _ _ (fun c hc => by simp [h c hc])]

/-! ## Claim theorems: provider resolution -/

/-- C2: for every Ollama model-selection name of the form `base ++ ":" ++ tag`
(with a colon-free base), the resolver computes the model identifier
`"ollama/" ++ base` — the tag is stripped and the provider namespace
prefixed; for every non-empty name containing no `':'`, the identifier is
`"ollama/"` followed by the name unchanged. -/
theorem ollamaTagStripping :
    (∀ (ephemeralOk : String → Bool) (i : MergeInput) (base tag : String),
        i.mainApiModel = some ApiModel.ollama →
        i.ollamaMainModelName = some (base ++ ":" ++ tag) →
        (∀ c ∈ base.data, c ≠ ':') →
        (resolveMainModel ephemeralOk i).modelToUse = some ("ollama/" ++ base)) ∧
    (∀ (ephemeralOk : String → Bool) (i : MergeInput) (nm : String),
        i.mainApiModel = some ApiModel.ollama →
        i.ollamaMainModelName = some nm →
        nm ≠ "" →
        (∀ c ∈ nm.data, c ≠ ':') →
        (resolveMainModel ephemeralOk i).modelToUse = some ("ollama/" ++ nm)) := by
  constructor
  · intro ok i base tag hMain hName hBase
    simp [resolveMainModel, hMain, hName, truthy, colonNameNeEmpty base tag,
      ollamaBaseColon base tag hBase]
  · intro ok i nm hMain hName hne hNoColon
    simp [resolveMainModel, hMain, hName, truthy, hne, ollamaBaseNoColon nm hNoColon]

/-- C2 witness: the tagged name `"llama2:7b"` resolves to model id
`"ollama/llama2"`, and the untagged name `"mistral"` resolves to
`"ollama/mistral"`. -/
theorem ollamaTagStripping_witness :
    (resolveMainModel (fun _ => false)
        { mainApiModel := some .ollama, ollamaMainModelName := some "llama2:7b" }).modelToUse =
      some "ollama/llama2" ∧
    (resolveMainModel (fun _ => false)
        { mainApiModel := some .ollama, ollamaMainModelName := some "mistral" }).modelToUse =
      some "ollama/mistral" :=
  ⟨ollamaTagStripping.1 (fun _ => false) _ "llama2" "7b" rfl (by decide) (by decide),
   ollamaTagStripping.2 (fun _ => false) _ "mistral" rfl rfl (by decide) (by decide)⟩

/-- C4: the flow executes a single generation call whose backend instance and
model identifier come from the main-model resolution chain alone; with the
custom-model flags off, two inputs agreeing on the main-role fields — whatever
their reasoning- and coding-specific provider and model-name fields hold —
resolve to the same backend instance and model identifier, so the reasoning
and coding roles effectively execute with the main role's resolution. -/
theorem roleFallback (ephemeralOk : String → Bool) (i₁ i₂ : MergeInput)
    (_hflagR : i₁.useCustomReasoningModel = some false)
    (_hflagC : i₁.useCustomCodingModel = some false)
    (hMain : i₁.mainApiModel = i₂.mainApiModel)
    (hOllama : i₁.ollamaMainModelName = i₂.ollamaMainModelName)
    (hGemini : i₁.geminiMainModelName = i₂.geminiMainModelName)
    (hOpenrouter : i₁.openrouterMainModelName = i₂.openrouterMainModelName)
    (hHuggingface : i₁.huggingfaceMainModelName = i₂.huggingfaceMainModelName)
    (hKey : i₁.geminiApiKey = i₂.geminiApiKey) :
    resolveMainModel ephemeralOk i₁ = resolveMainModel ephemeralOk i₂ := by
  simp only [resolveMainModel, hMain, hOllama, hGemini, hOpenrouter, hHuggingface, hKey]

/-- C4 witness: two inputs sharing the main configuration but with entirely
different reasoning/coding fields (flags off) resolve identically. -/
theorem roleFallback_witness :
    resolveMainModel (fun _ => true)
      { mainApiModel := some .ollama, ollamaMainModelName := some "llama2:7b",
        useCustomReasoningModel := some false, useCustomCodingModel := some false,
        reasoningApiModel := some .gemini, geminiReasoningModelName := some "gemini-pro",
        codingApiModel := some .openrouter, openrouterCodingModelName := some "meta/llama3" } =
    resolveMainModel (fun _ => true)
      { mainApiModel := some .ollama, ollamaMainModelName := some "llama2:7b" } :=
  roleFallback (fun _ => true) _ _ rfl rfl rfl rfl rfl rfl rfl rfl

/-- C5: with main provider `gemini` and a (truthy) user API key and model
name, the resolver builds an ephemeral request-scoped instance from that key
with model id `"googleai/" ++ name`; when ephemeral construction throws, it
falls back to the shared default instance with the same model id and logs
the failure. Resolution is a total function — it never raises — so no error
propagates from resolution to the caller; failures can only arise later,
from output validation. -/
theorem geminiEphemeralResolution (ephemeralOk : String → Bool) (i : MergeInput)
    (hMain : i.mainApiModel = some ApiModel.gemini)
    (hKey : truthy i.geminiApiKey = true)
    (hName : truthy i.geminiMainModelName = true) :
    (ephemeralOk (i.geminiApiKey.getD "") = true →
       resolveMainModel ephemeralOk i =
         { inst := .ephemeral (i.geminiApiKey.getD ""),
           modelToUse := some ("googleai/" ++ i.geminiMainModelName.getD ""),
           fallbackLogged := false }) ∧
    (ephemeralOk (i.geminiApiKey.getD "") = false →
       resolveMainModel ephemeralOk i =
         { inst := .shared,
           modelToUse := some ("googleai/" ++ i.geminiMainModelName.getD ""),
           fallbackLogged := true }) := by
  constructor
  · intro hOk
    simp [resolveMainModel, hMain, hKey, hName, hOk]
  · intro hOk
    simp [resolveMainModel, hMain, hKey, hName, hOk]

/-- C5 witness: with key `"k"` and model `"gemini-pro"`, successful ephemeral
construction yields the ephemeral instance, and failing construction falls
back to the shared instance with the same model id and the failure logged. -/
theorem geminiEphemeralResolution_witness :
    resolveMainModel (fun _ => true)
      { mainApiModel := some .gemini, geminiApiKey := some "k",
        geminiMainModelName := some "gemini-pro" } =
      { inst := .ephemeral "k", modelToUse := some "googleai/gemini-pro",
        fallbackLogged := false } ∧
    resolveMainModel (fun _ => false)
      { mainApiModel := some .gemini, geminiApiKey := some "k",
        geminiMainModelName := some "gemini-pro" } =
      { inst := .shared, modelToUse := some "googleai/gemini-pro",
        fallbackLogged := true } :=
  ⟨(geminiEphemeralResolution (fun _ => true)
      { mainApiModel := some .gemini, geminiApiKey := some "k",
        geminiMainModelName := some "gemini-pro" } rfl rfl rfl).1 rfl,
   (geminiEphemeralResolution (fun _ => false)
      { mainApiModel := some .gemini, geminiApiKey := some "k",
        geminiMainModelName := some "gemini-pro" } rfl rfl rfl).2 rfl⟩

/-- C8: with main provider `llamafile`, the resolver sets no model id
override and constructs no ephemeral instance — the call runs on the shared
instance with its default model — and the resolution is independent of the
`llamafilePath` field, which reaches only the prompt text. -/
theorem llamafileNoOverride (ephemeralOk : String → Bool) (i : MergeInput)
    (hMain : i.mainApiModel = some ApiModel.llamafile) :
    resolveMainModel ephemeralOk i =
      { inst := .shared, modelToUse := none, fallbackLogged := false } ∧
    (∀ p : Option String,
       resolveMainModel ephemeralOk { i with llamafilePath := p } =
         resolveMainModel ephemeralOk i) := by
  constructor
  · simp [resolveMainModel, hMain]
  · intro p
    simp only [resolveMainModel]

/-- C8 witness: a llamafile selection with a populated path resolves to the
shared instance with no model override, and changing the path changes
nothing. -/
theorem llamafileNoOverride_witness :
    resolveMainModel (fun _ => true)
      { mainApiModel := some .llamafile, llamafilePath := some "/models/x.llamafile" } =
      { inst := .shared, modelToUse := none, fallbackLogged := false } ∧
    resolveMainModel (fun _ => true)
      { mainApiModel := some .llamafile, llamafilePath := some "/other" } =
      resolveMainModel (fun _ => true)
        { mainApiModel := some .llamafile, llamafilePath := some "/models/x.llamafile" } :=
  ⟨(llamafileNoOverride (fun _ => true) _ rfl).1,
   (llamafileNoOverride (fun _ => true)
      { mainApiModel := some .llamafile, llamafilePath := some "/models/x.llamafile" } rfl).2
      (some "/other")⟩

/-- C9: with main provider `gemini` and a truthy API key but an absent or
empty model name, no branch of the resolution chain fires: no ephemeral
instance is constructed and no model override is set — the request executes
on the shared default instance with its configured default model. -/
theorem geminiKeyWithoutName (ephemeralOk : String → Bool) (i : MergeInput)
    (hMain : i.mainApiModel = some ApiModel.gemini)
    (hKey : truthy i.geminiApiKey = true)
    (hName : truthy i.geminiMainModelName = false) :
    resolveMainModel ephemeralOk i =
      { inst := .shared, modelToUse := none, fallbackLogged := false } := by
  simp [resolveMainModel, hMain, hKey, hName]

/-- C9 witness: a gemini selection with key `"k"` and an empty model name
resolves to the shared instance with no override; so does one with the model
name absent. -/
theorem geminiKeyWithoutName_witness :
    resolveMainModel (fun _ => true)
      { mainApiModel := some .gemini, geminiApiKey := some "k",
        geminiMainModelName := some "" } =
      { inst := .shared, modelToUse := none, fallbackLogged := false } ∧
    resolveMainModel (fun _ => true)
      { mainApiModel := some .gemini, geminiApiKey := some "k" } =
      { inst := .shared, modelToUse := none, fallbackLogged := false } :=
  ⟨geminiKeyWithoutName (fun _ => true) _ rfl rfl rfl,
   geminiKeyWithoutName (fun _ => true) _ rfl rfl rfl⟩

/-! ## Claim theorems: merge-output validation -/

/-- A raw file entry that satisfies the strict validator: an object whose
`path` is a string with non-blank trim and whose `content` is a string. -/
def validEntry (e : FileEntry) : Prop :=
  ∃ p c, e = .obj { path := .str p, content := .str c } ∧ trimEmpty p = false

theorem checkFile_ok_iff (e : FileEntry) (f : MergeFile) :
    checkFile e = .ok f ↔
      ∃ p c, e = .obj { path := .str p, content := .str c } ∧ trimEmpty p = false ∧
        f = { path := p, content := c } := by
  cases e with
  | nonObj b => cases b <;> simp [checkFile]
  | obj rf =>
    obtain ⟨pa, co⟩ := rf
    cases pa with
    | nonStr b => simp [checkFile]
    | str p =>
      cases co with
      | nonStr b =>
        by_cases ht : trimEmpty p = true <;> simp [checkFile, ht]
      | str c =>
        by_cases ht : trimEmpty p = true
        · simp [checkFile, ht]
        · simp [checkFile, ht]
          aesop

theorem checkFiles_ok (es : List FileEntry) (fs : List MergeFile)
    (h : checkFiles es = .ok fs) :
    (∀ e ∈ es, validEntry e) ∧ fs.length = es.length ∧
      ∀ f ∈ fs, trimEmpty f.path = false := by
  induction es generalizing fs with
  | nil =>
    simp only [checkFiles, Except.ok.injEq] at h
    subst h
    simp
  | cons e rest ih =>
    simp only [checkFiles] at h
    cases hce : checkFile e with
    | error er => rw [hce] at h; exact Except.noConfusion h
    | ok f =>
      rw [hce] at h
      cases hcr : checkFiles rest with
      | error er => rw [hcr] at h; exact Except.noConfusion h
      | ok fs' =>
        rw [hcr] at h
        simp only [Except.ok.injEq] at h
        subst h
        obtain ⟨hall, hlen, hpaths⟩ := ih fs' hcr
        obtain ⟨p, c, he, hp, hf⟩ := (checkFile_ok_iff e f).mp hce
        refine ⟨?_, by simp [hlen], ?_⟩
        · intro x hx
          rcases List.mem_cons.mp hx with hx | hx
          · exact hx ▸ ⟨p, c, he, hp⟩
          · exact hall x hx
        · intro x hx
          rcases List.mem_cons.mp hx with hx | hx
          · subst hx; simp [hf, hp]
          · exact hpaths x hx

/-- C6: every result the strict merge validator returns has a files list in
which each entry's path is a (trim-)non-empty string and each content a
string (the typed result); an absent output, a non-array `files`, or any
entry violating the file invariants makes the flow raise a typed hard error
instead of returning — in particular an accepted response always had `files`
present as a genuine array. -/
theorem mergeShapeValidation :
    (∀ (o : Option RawOutput) (r : MergeOutput), intelligentMergeValidate o = .ok r →
       (∃ out es, o = some out ∧ out.files = .list es ∧ ∀ e ∈ es, validEntry e) ∧
       (∀ f ∈ r.files, f.path ≠ "" ∧ trimEmpty f.path = false)) ∧
    intelligentMergeValidate none = .error .emptyResponse ∧
    (∀ (falsy lengthIsZero : Bool) (sum : FVal),
       ∃ er, intelligentMergeValidate
         (some { files := .nonList falsy lengthIsZero, summary := sum }) = .error er) ∧
    (∀ (out : RawOutput) (es : List FileEntry), out.files = .list es →
       (∃ e ∈ es, ¬ validEntry e) →
       ∃ er, intelligentMergeValidate (some out) = .error er) := by
  have okCase : ∀ (o : Option RawOutput) (r : MergeOutput),
      intelligentMergeValidate o = .ok r →
      (∃ out es, o = some out ∧ out.files = .list es ∧ ∀ e ∈ es, validEntry e) ∧
      (∀ f ∈ r.files, f.path ≠ "" ∧ trimEmpty f.path = false) := by
    intro o r h
    match o with
    | none => exact Except.noConfusion h
    | some out =>
      simp only [intelligentMergeValidate] at h
      split at h
      · exact Except.noConfusion h
      · rename_i s hs
        split at h
        · exact Except.noConfusion h
        · rename_i ht
          split at h
          · exact Except.noConfusion h
          · rename_i es hf
            split at h
            · exact Except.noConfusion h
            · rename_i fs hc
              simp only [Except.ok.injEq] at h
              obtain ⟨hall, _, hpaths⟩ := checkFiles_ok es fs hc
              refine ⟨⟨out, es, rfl, hf, hall⟩, ?_⟩
              intro f hfmem
              have hfr : f ∈ fs := by rw [← h] at hfmem; exact hfmem
              refine ⟨?_, hpaths f hfr⟩
              intro hemp
              have hx := hpaths f hfr
              rw [hemp] at hx
              simp [trimEmpty] at hx
  refine ⟨okCase, rfl, ?_, ?_⟩
  · intro falsy lengthIsZero sum
    cases hv : intelligentMergeValidate
        (some { files := .nonList falsy lengthIsZero, summary := sum }) with
    | error er => exact ⟨er, rfl⟩
    | ok r =>
      exfalso
      obtain ⟨⟨out, es, hout, hfiles, _⟩, _⟩ := okCase _ r hv
      simp only [Option.some.injEq] at hout
      rw [← hout] at hfiles
      exact FilesVal.noConfusion hfiles
  · intro out es hfiles hbadmem
    obtain ⟨e, he, hbad⟩ := hbadmem
    cases hv : intelligentMergeValidate (some out) with
    | error er => exact ⟨er, rfl⟩
    | ok r =>
      exfalso
      obtain ⟨⟨out', es', hout, hfiles', hall⟩, _⟩ := okCase _ r hv
      simp only [Option.some.injEq] at hout
      rw [← hout, hfiles] at hfiles'
      simp only [FilesVal.list.injEq] at hfiles'
      exact hbad (hall e (hfiles' ▸ he))

/-- The concrete valid raw merge output used by the C6 witness. -/
def exRawOk : RawOutput :=
  { files := FilesVal.list [.obj { path := .str "src/index.ts", content := .str "x" }],
    summary := FVal.str "merged" }

/-- The concrete raw merge output with a blank-path entry used by the C6
witness. -/
def exRawBadPath : RawOutput :=
  { files := FilesVal.list [.obj { path := .str "", content := .str "x" }],
    summary := FVal.str "merged" }

/-- C6 witness: a concrete valid response is accepted with the stated file
invariants, and concrete violating responses (non-array files; an entry with
a blank path) are rejected. -/
theorem mergeShapeValidation_witness :
    ((∃ out es, (some exRawOk : Option RawOutput) = some out ∧
        out.files = .list es ∧ ∀ e ∈ es, validEntry e) ∧
     (∀ f ∈ ({ files := [{ path := "src/index.ts", content := "x" }],
               summary := "merged" } : MergeOutput).files,
        f.path ≠ "" ∧ trimEmpty f.path = false)) ∧
    (∃ er, intelligentMergeValidate
       (some { files := .nonList false false, summary := .str "merged" }) = .error er) ∧
    (∃ er, intelligentMergeValidate (some exRawBadPath) = .error er) :=
  ⟨mergeShapeValidation.1 (some exRawOk)
     { files := [{ path := "src/index.ts", content := "x" }], summary := "merged" } rfl,
   mergeShapeValidation.2.2.1 false false (.str "merged"),
   mergeShapeValidation.2.2.2 exRawBadPath
     [.obj { path := .str "", content := .str "x" }] rfl
     ⟨.obj { path := .str "", content := .str "x" }, by simp, by
        intro hval
        obtain ⟨p, c, he, hp⟩ := hval
        simp only [FileEntry.obj.injEq, RawFile.mk.injEq, FVal.str.injEq] at he
        rw [← he.1] at hp
        simp [trimEmpty] at hp⟩⟩

/-- C1 counterexample: the claim asserts that the merge flow accepts
`{files: [{path: "a.txt", content: ""}], summary: ""}` with a placeholder
summary, but the validator of `src/ai/flows/intelligent-merge.ts` (lines
200-202) rejects every blank summary outright, non-empty file list or not:
at exactly that input it raises the invalid-summary error instead of
returning a result. -/
theorem mergeDegradation_cx :
    intelligentMergeValidate
      (some { files := FilesVal.list [.obj { path := .str "a.txt", content := .str "" }],
              summary := FVal.str "" }) = .error .invalidSummary := rfl

/-- C1 amended: both merge-validator generations reject a blank summary with
an empty file list; on a blank (string) summary with a non-empty file list
the lenient generation (`src/unnamed/part_004`) returns a result whose
summary is a non-empty string (the placeholder when the summary was `""`),
while the validator of `src/ai/flows/intelligent-merge.ts` raises the
invalid-summary error there as well. -/
theorem mergeDegradation_amended :
    (∀ s : String, trimEmpty s = true →
       intelligentMergeValidate (some { files := .list [], summary := .str s }) =
         .error .invalidSummary ∧
       intelligentMergeValidateLenient (some { files := .list [], summary := .str s }) =
         .error .emptySummaryAndNoFiles) ∧
    (∀ (s : String) (e : FileEntry) (es : List FileEntry), trimEmpty s = true →
       intelligentMergeValidate (some { files := .list (e :: es), summary := .str s }) =
         .error .invalidSummary ∧
       ∃ t, intelligentMergeValidateLenient
              (some { files := .list (e :: es), summary := .str s }) =
            .ok { files := lenientFiles (e :: es), summary := .str t } ∧ t ≠ "") := by
  constructor
  · intro s hs
    constructor
    · simp [intelligentMergeValidate, hs]
    · simp [intelligentMergeValidateLenient, hs]
  · intro s e es hs
    constructor
    · simp [intelligentMergeValidate, hs]
    · by_cases he : s = ""
      · subst he
        refine ⟨placeholderSummary, ?_, by decide⟩
        simp [intelligentMergeValidateLenient, hs, fvalTruthy]
      · refine ⟨s, ?_, he⟩
        simp [intelligentMergeValidateLenient, hs, he, fvalTruthy]

/-- C1 amended witness: at the two concrete responses of the claim, the
strict validator rejects both, and the lenient one rejects the first and
accepts the second with the non-empty placeholder summary. -/
theorem mergeDegradation_amended_witness :
    (intelligentMergeValidate (some { files := .list [], summary := .str "" }) =
       .error .invalidSummary ∧
     intelligentMergeValidateLenient (some { files := .list [], summary := .str "" }) =
       .error .emptySummaryAndNoFiles) ∧
    (intelligentMergeValidate
       (some { files := .list [.obj { path := .str "a.txt", content := .str "" }],
               summary := .str "" }) = .error .invalidSummary ∧
     ∃ t, intelligentMergeValidateLenient
            (some { files := .list [.obj { path := .str "a.txt", content := .str "" }],
                    summary := .str "" }) =
          .ok { files := lenientFiles [.obj { path := .str "a.txt", content := .str "" }],
                summary := .str t } ∧ t ≠ "") :=
  ⟨mergeDegradation_amended.1 "" rfl,
   mergeDegradation_amended.2 "" (.obj { path := .str "a.txt", content := .str "" }) [] rfl⟩

/-! ## Claim theorems: recommendation-output validation -/

theorem allFalseAnyNot (p : Char → Bool) (l : List Char) (h : l.all p = false) :
    l.any (fun c => !(p c)) = true := by
  rw [List.any_eq_true]
  have hx : ¬ ∀ c ∈ l, p c = true := by
    intro hall
    rw [List.all_eq_true.mpr hall] at h
    exact Bool.noConfusion h
  push_neg at hx
  obtain ⟨c, hc, hpc⟩ := hx
  exact ⟨c, hc, by simp [Bool.not_eq_true] at hpc; simp [hpc]⟩

theorem checkRec_ok (e : RecEntry) (rec : Recommendation) (warned : Bool)
    (h : checkRec e = .ok (rec, warned)) :
    (∃ n u w, e = .obj { name := .str n, url := .str u, reason := .str w } ∧
       rec = { name := n, url := u, reason := w }) ∧
    trimEmpty rec.name = false ∧ trimEmpty rec.url = false ∧
    (strStartsWith rec.url "http://" || strStartsWith rec.url "https://") = true ∧
    trimEmpty rec.reason = false ∧ warned = !githubShape rec.url := by
  cases e with
  | nonObj => exact Except.noConfusion h
  | obj r =>
    obtain ⟨na, ur, re⟩ := r
    cases na with
    | nonStr b => exact Except.noConfusion h
    | str n =>
      by_cases htn : trimEmpty n = true
      · simp [checkRec, htn] at h
      · rw [Bool.not_eq_true] at htn
        cases ur with
        | nonStr b => simp [checkRec, htn] at h
        | str u =>
          by_cases htu : trimEmpty u = true
          · simp [checkRec, htn, htu] at h
          · rw [Bool.not_eq_true] at htu
            by_cases hsch : (strStartsWith u "http://" || strStartsWith u "https://") = true
            · cases re with
              | nonStr b => simp [checkRec, htn, htu, hsch] at h
              | str w =>
                by_cases htw : trimEmpty w = true
                · simp [checkRec, htn, htu, hsch, htw] at h
                · rw [Bool.not_eq_true] at htw
                  simp only [checkRec, htn, htu, hsch, htw, Bool.not_true, if_false,
                    Bool.false_eq_true, Except.ok.injEq, Prod.mk.injEq] at h
                  obtain ⟨hrec, hwarn⟩ := h
                  subst hrec
                  exact ⟨⟨n, u, w, rfl, rfl⟩, htn, htu, hsch, htw, hwarn.symm⟩
            · rw [Bool.not_eq_true] at hsch
              simp [checkRec, htn, htu, hsch] at h

theorem checkRecs_ok (xs : List RecEntry) (res : RecResult)
    (h : checkRecs xs = .ok res) :
    res.recs.length = xs.length ∧
    ∀ r ∈ res.recs, trimEmpty r.name = false ∧ trimEmpty r.url = false ∧
      (strStartsWith r.url "http://" || strStartsWith r.url "https://") = true ∧
      trimEmpty r.reason = false := by
  induction xs generalizing res with
  | nil =>
    simp only [checkRecs, Except.ok.injEq] at h
    subst h
    simp
  | cons e rest ih =>
    cases hce : checkRec e with
    | error er => simp [checkRecs, hce] at h
    | ok pair =>
      obtain ⟨rec, warned⟩ := pair
      cases hcr : checkRecs rest with
      | error er => simp [checkRecs, hce, hcr] at h
      | ok res' =>
        simp only [checkRecs, hce, hcr, Except.ok.injEq] at h
        subst h
        obtain ⟨hlen, hprops⟩ := ih res' hcr
        obtain ⟨_, hn, hu, hsch, hw, _⟩ := checkRec_ok e rec warned hce
        refine ⟨by simp [hlen], ?_⟩
        intro r hr
        simp only [List.mem_cons] at hr
        rcases hr with hr | hr
        · subst hr; exact ⟨hn, hu, hsch, hw⟩
        · exact hprops r hr

/-- A raw recommendation entry accepted by the per-entry checks: an object
with non-blank string `name` and `reason` and a non-blank string `url`
carrying an HTTP(S) scheme. -/
def goodRecEntryP (e : RecEntry) : Prop :=
  ∃ n u w, e = .obj { name := .str n, url := .str u, reason := .str w } ∧
    trimEmpty n = false ∧ trimEmpty u = false ∧
    (strStartsWith u "http://" || strStartsWith u "https://") = true ∧
    trimEmpty w = false

theorem checkRec_good (n u w : String) (hn : trimEmpty n = false)
    (hu : trimEmpty u = false)
    (hsch : (strStartsWith u "http://" || strStartsWith u "https://") = true)
    (hw : trimEmpty w = false) :
    checkRec (.obj { name := .str n, url := .str u, reason := .str w }) =
      .ok ({ name := n, url := u, reason := w }, !githubShape u) := by
  simp [checkRec, hn, hu, hsch, hw]

theorem checkRecs_good (xs : List RecEntry) (h : ∀ e ∈ xs, goodRecEntryP e) :
    ∃ res, checkRecs xs = .ok res ∧
      ∀ n u w, RecEntry.obj { name := .str n, url := .str u, reason := .str w } ∈ xs →
        githubShape u = false → u ∈ res.warnings := by
  induction xs with
  | nil => exact ⟨{ recs := [], warnings := [] }, rfl, by simp⟩
  | cons e rest ih =>
    obtain ⟨n, u, w, he, hn, hu, hsch, hw⟩ := h e (List.mem_cons_self e rest)
    obtain ⟨res, hres, hmem⟩ := ih fun x hx => h x (List.mem_cons_of_mem e hx)
    subst he
    refine ⟨{ recs := { name := n, url := u, reason := w } :: res.recs,
              warnings := if !githubShape u then u :: res.warnings else res.warnings },
            ?_, ?_⟩
    · simp only [checkRecs, checkRec_good n u w hn hu hsch hw, hres]
    · intro n' u' w' hmem' hshape'
      rcases List.mem_cons.mp hmem' with hhead | htail
      · simp only [RecEntry.obj.injEq, RawRec.mk.injEq, FVal.str.injEq] at hhead
        obtain ⟨_, hu', _⟩ := hhead
        subst hu'
        simp [hshape']
      · have : u' ∈ res.warnings := hmem n' u' w' htail hshape'
        by_cases hg : githubShape u
        · simpa [hg] using this
        · simp [hg]
          exact Or.inr this

/-- C3: every recommendation result the validator returns has exactly 5
entries, and a backend response whose recommendations list has any other
length is rejected with the wrong-count error carrying the received count. -/
theorem recommendationCount :
    (∀ (o : Option RawRecOutput) (res : RecResult),
       recommendValidate o = .ok res → res.recs.length = 5) ∧
    (∀ recs : List RecEntry, recs.length ≠ 5 →
       recommendValidate (some { recommendations := some recs }) =
         .error (.wrongCount recs.length)) := by
  constructor
  · intro o res h
    match o with
    | none => exact Except.noConfusion h
    | some out =>
      match hro : out.recommendations with
      | none => simp [recommendValidate, hro] at h
      | some recs =>
        simp only [recommendValidate, hro] at h
        by_cases hlen : recs.length = 5
        · rw [if_neg (by simp [hlen])] at h
          rw [(checkRecs_ok recs res h).1, hlen]
        · rw [if_pos hlen] at h
          exact Except.noConfusion h
  · intro recs hlen
    simp [recommendValidate, hlen]

/-- C3 witness: a 4-entry response is rejected with the wrong-count error,
and a concrete accepted result has exactly 5 entries. -/
theorem recommendationCount_witness :
    recommendValidate (some { recommendations := some (List.replicate 4 goodRecEntry) }) =
      .error (.wrongCount 4) ∧
    ({ recs := List.replicate 5
         { name := "next.js", url := "https://github.com/vercel/next.js",
           reason := "popular react framework" },
       warnings := [] } : RecResult).recs.length = 5 :=
  ⟨recommendationCount.2 (List.replicate 4 goodRecEntry) (by decide),
   recommendationCount.1
     (some { recommendations := some (List.replicate 5 goodRecEntry) }) _ rfl⟩

/-- The concrete entry with an FTP url used by the C7 theorem. -/
def ftpRecEntry : RecEntry :=
  .obj { name := .str "repoX", url := .str "ftp://example.com/x",
         reason := .str "interesting" }

/-- C7: an accepted recommendation result only ever contains urls starting
with `http://` or `https://`; a concrete response containing the entry with
url `ftp://example.com/x` is rejected with the scheme error; a concrete
response of five `https://github.com/...` entries with non-empty names and
reasons is accepted; and a 5-entry response of well-formed entries is always
accepted even when urls fail the `github.com/owner/repo` shape — such urls
are only flagged in the non-fatal warning list. -/
theorem urlSchemeValidation :
    (∀ (o : Option RawRecOutput) (res : RecResult), recommendValidate o = .ok res →
       ∀ r ∈ res.recs,
         (strStartsWith r.url "http://" || strStartsWith r.url "https://") = true) ∧
    recommendValidate
      (some { recommendations := some (ftpRecEntry :: List.replicate 4 goodRecEntry) }) =
      .error .invalidUrlScheme ∧
    recommendValidate (some { recommendations := some (List.replicate 5 goodRecEntry) }) =
      .ok { recs := List.replicate 5
              { name := "next.js", url := "https://github.com/vercel/next.js",
                reason := "popular react framework" },
            warnings := [] } ∧
    (∀ recs : List RecEntry, recs.length = 5 → (∀ e ∈ recs, goodRecEntryP e) →
       ∃ res, recommendValidate (some { recommendations := some recs }) = .ok res ∧
         ∀ n u w,
           RecEntry.obj { name := .str n, url := .str u, reason := .str w } ∈ recs →
           githubShape u = false → u ∈ res.warnings) := by
  refine ⟨?_, rfl, rfl, ?_⟩
  · intro o res h
    match o with
    | none => exact Except.noConfusion h
    | some out =>
      match hro : out.recommendations with
      | none => simp [recommendValidate, hro] at h
      | some recs =>
        simp only [recommendValidate, hro] at h
        by_cases hlen : recs.length = 5
        · rw [if_neg (by simp [hlen])] at h
          intro r hr
          exact ((checkRecs_ok recs res h).2 r hr).2.2.1
        · rw [if_pos hlen] at h
          exact Except.noConfusion h
  · intro recs hlen hgood
    obtain ⟨res, hres, hwarn⟩ := checkRecs_good recs hgood
    refine ⟨res, ?_, hwarn⟩
    simp [recommendValidate, hlen, hres]

/-- A well-formed entry whose url is HTTP(S) but not github-shaped, used by
the C7 witness. -/
def nonGithubEntry : RecEntry :=
  .obj { name := .str "mirror", url := .str "https://gitlab.com/a/b",
         reason := .str "alternate hosting" }

/-- C7 witness: a concrete accepted result's urls all carry an HTTP(S)
scheme, and a concrete 5-entry response containing a non-github HTTPS url is
accepted with that url flagged in the warning list. -/
theorem urlSchemeValidation_witness :
    (∀ r ∈ ({ recs := List.replicate 5
                { name := "next.js", url := "https://github.com/vercel/next.js",
                  reason := "popular react framework" },
              warnings := [] } : RecResult).recs,
       (strStartsWith r.url "http://" || strStartsWith r.url "https://") = true) ∧
    (∃ res, recommendValidate
        (some { recommendations :=
                  some (nonGithubEntry :: List.replicate 4 goodRecEntry) }) = .ok res ∧
       ∀ n u w,
         RecEntry.obj { name := .str n, url := .str u, reason := .str w } ∈
           nonGithubEntry :: List.replicate 4 goodRecEntry →
         githubShape u = false → u ∈ res.warnings) :=
  ⟨urlSchemeValidation.1
     (some { recommendations := some (List.replicate 5 goodRecEntry) }) _ rfl,
   urlSchemeValidation.2.2.2 (nonGithubEntry :: List.replicate 4 goodRecEntry)
     (by decide)
     (by
       intro e he
       simp only [List.mem_cons, List.mem_replicate] at he
       rcases he with he | ⟨_, he⟩
       · exact ⟨"mirror", "https://gitlab.com/a/b", "alternate hosting", by rw [he]; rfl,
           by decide, by decide, by decide, by decide⟩
       · exact ⟨"next.js", "https://github.com/vercel/next.js", "popular react framework",
           by rw [he]; rfl, by decide, by decide, by decide, by decide⟩)⟩

/-- C10: the recommendation validator rejects whitespace-only fields, not
merely empty ones: every accepted result's entries have a name, url and
reason each containing at least one non-whitespace character, and a concrete
response whose first entry's name is `"   "` is rejected with the
invalid-name error. -/
theorem blankFieldRejection :
    (∀ (o : Option RawRecOutput) (res : RecResult), recommendValidate o = .ok res →
       ∀ r ∈ res.recs,
         r.name.data.any (fun c => !(isJsWS c)) = true ∧
         r.url.data.any (fun c => !(isJsWS c)) = true ∧
         r.reason.data.any (fun c => !(isJsWS c)) = true) ∧
    recommendValidate
      (some { recommendations :=
                some (RecEntry.obj { name := .str "   ",
                                     url := .str "https://github.com/a/b",
                                     reason := .str "why" } ::
                      List.replicate 4 goodRecEntry) }) = .error .invalidName := by
  refine ⟨?_, rfl⟩
  intro o res h
  match o with
  | none => exact Except.noConfusion h
  | some out =>
    match hro : out.recommendations with
    | none => simp [recommendValidate, hro] at h
    | some recs =>
      simp only [recommendValidate, hro] at h
      by_cases hlen : recs.length = 5
      · rw [if_neg (by simp [hlen])] at h
        intro r hr
        obtain ⟨hn, hu, _, hw⟩ := (checkRecs_ok recs res h).2 r hr
        exact ⟨allFalseAnyNot _ _ hn, allFalseAnyNot _ _ hu, allFalseAnyNot _ _ hw⟩
      · rw [if_pos hlen] at h
        exact Except.noConfusion h

/-- C10 witness: the entries of a concrete accepted result each contain a
non-whitespace character in name, url and reason. -/
theorem blankFieldRejection_witness :
    ∀ r ∈ ({ recs := List.replicate 5
               { name := "next.js", url := "https://github.com/vercel/next.js",
                 reason := "popular react framework" },
             warnings := [] } : RecResult).recs,
      r.name.data.any (fun c => !(isJsWS c)) = true ∧
      r.url.data.any (fun c => !(isJsWS c)) = true ∧
      r.reason.data.any (fun c => !(isJsWS c)) = true :=
  blankFieldRejection.1
    (some { recommendations := some (List.replicate 5 goodRecEntry) }) _ rfl
